import Mathlib

/-!
Verification of the RESP codec and cursor-iterator layer of RedisMan-go.

Bytes are modelled as natural numbers (Go strings are byte sequences), byte
strings as `List Nat`.  The Go `bufio.Reader` stream is modelled as the list
of bytes not yet consumed: every parsing function takes the remaining bytes
and returns the decoded value together with the bytes left over, or an error.
Go's unbounded recursion in `parseArray → ParseValue` is modelled with an
explicit fuel parameter (`parseValueF`); `ParseValue` supplies fuel
`length + 1`, which is always sufficient because every recursive call first
consumes at least the one-byte type tag.
-/

/-- The RESP value kinds, from `resp.ValueType` (`value.go`). -/
inductive ValueType where
  | TypeNone
  | TypeString
  | TypeInteger
  | TypeBulkString
  | TypeArray
  | TypeNull
  | TypeError
deriving DecidableEq

/-- The decoded protocol values, from the `resp` package (`value.go`):
`RedisString` (simple string), `RedisBulkString` (payload bytes plus the
declared length field), `RedisInteger`, `RedisArray`, `RedisError` and
`RedisNull`.  Go's `[]RedisValue` becomes `List RedisValue`. -/
inductive RedisValue where
  | RedisString (s : List Nat)
  | RedisBulkString (b : List Nat) (length : Int)
  | RedisInteger (i : Int)
  | RedisArray (vs : List RedisValue)
  | RedisError (e : List Nat)
  | RedisNull

/-- ASCII bytes of a string literal, used only to transcribe the Go message
string constants appearing in the source. -/
def asciiBytes (s : String) : List Nat := s.toList.map (fun c => c.toNat)

/-- Little-endian base-10 digits of `n`, with fuel (structural, so that the
kernel can evaluate it); `rawDigits f n` is correct whenever `n ≤ f`. -/
def rawDigits : Nat → Nat → List Nat
  | 0, _ => []
  | _ + 1, 0 => []
  | f + 1, n + 1 => ((n + 1) % 10) :: rawDigits f ((n + 1) / 10)

/-- Value of a little-endian digit list. -/
def valLE : List Nat → Nat
  | [] => 0
  | d :: ds => d + 10 * valLE ds

/-- The ASCII decimal representation of a natural number, as produced by
Go's `fmt.Sprintf`/`strconv` `%d` formatting. -/
def natDecBytes (n : Nat) : List Nat :=
  if n = 0 then [48] else ((rawDigits n n).map (fun d => d + 48)).reverse

/-- The ASCII decimal representation of an integer (`strconv.FormatInt`,
and the `%d` formatting of possibly-negative Go ints). -/
def intDecBytes (i : Int) : List Nat :=
  if i < 0 then 45 :: natDecBytes i.natAbs else natDecBytes i.natAbs

/-- `RedisValue.StringValue()` from `value.go`: simple strings, bulk strings
and errors return their text; integers their decimal rendering; arrays and
null return the empty string. -/
def StringValue : RedisValue → List Nat
  | .RedisString s => s
  | .RedisBulkString b _ => b
  | .RedisInteger i => intDecBytes i
  | .RedisArray _ => []
  | .RedisError e => e
  | .RedisNull => []

/-- `RedisValue.Type()` from `value.go`. -/
def vtype : RedisValue → ValueType
  | .RedisString _ => .TypeString
  | .RedisBulkString _ _ => .TypeBulkString
  | .RedisInteger _ => .TypeInteger
  | .RedisArray _ => .TypeArray
  | .RedisError _ => .TypeError
  | .RedisNull => .TypeNull

/-- Whether a value is error-typed (a `resp.RedisError`). -/
def isErrorValue : RedisValue → Bool
  | .RedisError _ => true
  | _ => false

/-- `bufio.Reader.ReadString('\n')`: the bytes up to and including the first
LF, plus the remaining stream; `none` models the EOF error when no LF is
found. -/
def readStringNl : List Nat → Option (List Nat × List Nat)
  | [] => none
  | b :: rest =>
    if b = 10 then some ([10], rest)
    else
      match readStringNl rest with
      | none => none
      | some (l, r) => some (b :: l, r)

/-- `strings.TrimSuffix(line, "\r\n")`. -/
def stripCRLF (l : List Nat) : List Nat :=
  match l.reverse with
  | 10 :: 13 :: r => r.reverse
  | _ => l

/-- `readLine` from `parser.go`: read until LF and strip a trailing CRLF. -/
def readLine (bs : List Nat) : Except String (List Nat × List Nat) :=
  match readStringNl bs with
  | none => .error (r"EOF before newline")
  | some (line, rest) => .ok (stripCRLF line, rest)

/-- ASCII digit test. -/
def isDigitB (b : Nat) : Bool := decide (48 ≤ b ∧ b ≤ 57)

/-- Big-endian accumulation of ASCII digit bytes into a natural number. -/
def digitsToNat (l : List Nat) : Nat := l.foldl (fun a b => a * 10 + (b - 48)) 0

/-- An optional single leading sign, as accepted by `strconv.ParseInt`:
returns whether the number is negated and the remaining digit bytes. -/
def parseSign (l : List Nat) : Bool × List Nat :=
  match l with
  | [] => (false, [])
  | b :: rest => if b = 43 then (false, rest) else if b = 45 then (true, rest) else (false, l)

/-- `parseDigits`: a nonempty all-digit byte list, else failure. -/
def parseDigits (l : List Nat) : Option Nat :=
  if l ≠ [] ∧ l.all isDigitB then some (digitsToNat l) else none

/-- The signed value of a digit run: negated when a `-` sign was read. -/
def atoiVal (neg : Bool) (n : Nat) : Int := if neg then -(n : Int) else (n : Int)

/-- Go `strconv.Atoi` / `strconv.ParseInt(line, 10, 64)` (the two agree on
64-bit platforms): optional sign, at least one digit, and the result must
fit in a signed 64-bit integer, otherwise an error (`none`). -/
def atoi (l : List Nat) : Option Int :=
  match parseDigits (parseSign l).2 with
  | none => none
  | some n =>
    if -(2 ^ 63) ≤ atoiVal (parseSign l).1 n ∧ atoiVal (parseSign l).1 n < 2 ^ 63 then
      some (atoiVal (parseSign l).1 n)
    else none

/-- Decoder result: the value plus the unconsumed bytes, or a decode error. -/
abbrev ParseResult := Except String (RedisValue × List Nat)

/-- `parseSimpleString` from `parser.go` (after the `+` tag). -/
def parseSimpleString (bs : List Nat) : ParseResult :=
  match readLine bs with
  | .error e => .error e
  | .ok (line, rest) => .ok (.RedisString line, rest)

/-- `parseError` from `parser.go` (after the `-` tag). -/
def parseError (bs : List Nat) : ParseResult :=
  match readLine bs with
  | .error e => .error e
  | .ok (line, rest) => .ok (.RedisError line, rest)

/-- `parseInteger` from `parser.go` (after the `:` tag). -/
def parseInteger (bs : List Nat) : ParseResult :=
  match readLine bs with
  | .error e => .error e
  | .ok (line, rest) =>
    match atoi line with
    | none => .error (r"invalid integer format")
    | some i => .ok (.RedisInteger i, rest)

/-- `parseBulkString` from `parser.go` (after the `$` tag): read the length
line; `-1` is the null bulk string; any other negative length is an error;
otherwise read exactly `length` raw payload bytes (`io.ReadFull`, binary
safe) and then require the next two bytes to be CR LF. -/
def parseBulkString (bs : List Nat) : ParseResult :=
  match readLine bs with
  | .error e => .error e
  | .ok (line, rest) =>
    match atoi line with
    | none => .error (r"invalid bulk string length")
    | some length =>
      if length = -1 then .ok (.RedisNull, rest)
      else if length < -1 then .error (r"invalid bulk string length")
      else
        let n := length.toNat
        if n ≤ rest.length then
          match rest.drop n with
          | c1 :: c2 :: rest2 =>
            if c1 = 13 ∧ c2 = 10 then .ok (.RedisBulkString (rest.take n) length, rest2)
            else .error (r"expected CRLF after bulk string payload")
          | _ => .error (r"failed to read bulk string trailing CRLF")
        else .error (r"failed to read bulk string payload")

/-- The element loop of `parseArray`: decode `count` values in sequence with
the element parser `p`, preserving order. -/
def parseElems (p : List Nat → ParseResult) : Nat → List Nat → Except String (List RedisValue × List Nat)
  | 0, bs => .ok ([], bs)
  | n + 1, bs =>
    match p bs with
    | .error e => .error e
    | .ok (v, rest) =>
      match parseElems p n rest with
      | .error e => .error e
      | .ok (vs, rest2) => .ok (v :: vs, rest2)

/-- `parseArray` from `parser.go` (after the `*` tag), with the recursive
call to `ParseValue` abstracted as `p`: read the count line; `-1` is the
null array; any other negative count is an error; otherwise decode that
many values recursively. -/
def parseArrayWith (p : List Nat → ParseResult) (bs : List Nat) : ParseResult :=
  match readLine bs with
  | .error e => .error e
  | .ok (line, rest) =>
    match atoi line with
    | none => .error (r"invalid array count")
    | some count =>
      if count = -1 then .ok (.RedisNull, rest)
      else if count < -1 then .error (r"invalid array count")
      else
        match parseElems p count.toNat rest with
        | .error e => .error e
        | .ok (vs, rest2) => .ok (.RedisArray vs, rest2)

/-- `resp.ParseValue` from `parser.go`, with explicit fuel for the
`parseArray → ParseValue` recursion: read the type-tag byte and dispatch on
`+ - : $ *`; any other tag is a decode error. -/
def parseValueF : Nat → List Nat → ParseResult
  | 0, _ => .error (r"recursion fuel exhausted")
  | f + 1, bs =>
    match bs with
    | [] => .error (r"EOF before type tag")
    | b :: rest =>
      if b = 43 then parseSimpleString rest
      else if b = 45 then parseError rest
      else if b = 58 then parseInteger rest
      else if b = 36 then parseBulkString rest
      else if b = 42 then parseArrayWith (parseValueF f) rest
      else .error (r"unknown RESP type byte")

/-- `resp.ParseValue`: fuel `length + 1` always suffices, since each nested
recursive call strictly consumes input beforehand. -/
def ParseValue (bs : List Nat) : ParseResult := parseValueF (bs.length + 1) bs

/-- `Connection.SendRaw` from `connection.go`: the wire bytes written for
raw string arguments — an array header `*<count>\r\n` followed by one
length-prefixed bulk string `$<len>\r\n<bytes>\r\n` per argument. -/
def sendRawBytes (args : List (List Nat)) : List Nat :=
  42 :: natDecBytes args.length ++ [13, 10] ++
    (args.map (fun b => 36 :: natDecBytes b.length ++ [13, 10] ++ b ++ [13, 10])).flatten

/-- Modelled from the spec (§4.1, §6): the crafted reply bytes of a whole
`Value` tree.  The repository has no tree-level encoder (`SendRaw` only
encodes flat commands), so the spec's round-trip property needs this
wire-format encoding: each value is emitted in its canonical RESP form, with
`RedisNull` as the null bulk string `$-1\r\n`. -/
def encodeValue : RedisValue → List Nat
  | .RedisString s => 43 :: s ++ [13, 10]
  | .RedisError e => 45 :: e ++ [13, 10]
  | .RedisInteger i => 58 :: intDecBytes i ++ [13, 10]
  | .RedisBulkString b _ => 36 :: natDecBytes b.length ++ [13, 10] ++ b ++ [13, 10]
  | .RedisNull => [36, 45, 49, 13, 10]
  | .RedisArray vs =>
    42 :: natDecBytes vs.length ++ [13, 10] ++ (vs.attach.map (fun u => encodeValue u.1)).flatten
decreasing_by
  have := List.sizeOf_lt_of_mem u.2
  simp_wf
  omega

/-- Well-formedness of a value with respect to the wire format: line-typed
texts contain no LF, integers fit in 64 bits, a bulk string's declared
length equals its payload length, and array/bulk lengths fit in a Go int. -/
def wfValue : RedisValue → Bool
  | .RedisString s => decide ((10 : Nat) ∉ s)
  | .RedisError e => decide ((10 : Nat) ∉ e)
  | .RedisInteger i => decide (-(2 ^ 63) ≤ i ∧ i < 2 ^ 63)
  | .RedisBulkString b length => decide (length = (b.length : Int) ∧ (b.length : Nat) < 2 ^ 63)
  | .RedisNull => true
  | .RedisArray vs => decide (vs.length < 2 ^ 63) && vs.attach.all (fun u => wfValue u.1)
decreasing_by
  have := List.sizeOf_lt_of_mem u.2
  simp_wf
  omega

/-- Size measure used as a fuel bound for the parser: one plus the sizes of
all array descendants. -/
def vsize : RedisValue → Nat
  | .RedisArray vs => 1 + (vs.attach.map (fun u => vsize u.1)).sum
  | _ => 1
decreasing_by
  have := List.sizeOf_lt_of_mem u.2
  simp_wf
  omega

/-!
The cursor iterators of `subscribe.go` / `safekeys.go`.

A `Connection` is modelled by the ordered outcomes of its send/receive
pairs: each page of an iterator performs one send and one receive, so one
`ConnEvent` is consumed per page.  `sendFail` means `c.Send` returned an
error, `recvFail` means `c.Receive` returned an error, and `reply v` means
the page's response decoded to `v`.  An exhausted event list behaves like a
receive failure (the server never answers).  The consumer is modelled as
draining the whole sequence (`yield` always returns true), so an iterator
is a function from the event list to the pair of (values yielded, paging
requests issued).  Only the varying part of each paging command is
recorded: the cursor string for the scan families and the stream range,
and the `(start, stop)` index pair for the list range.
-/

/-- One send/receive round trip against the modelled connection. -/
inductive ConnEvent where
  | sendFail
  | recvFail
  | reply (v : RedisValue)

/-- The per-family diagnostic message constants of a scan loop (the Go
messages carry a trailing `: %v` with the transport error, which is not
modelled). -/
structure ScanMsgs where
  sendFailed : List Nat
  recvFailed : List Nat
  badShape : List Nat
  badElems : List Nat

/-- The shared loop body of `SafeKeys`, `SafeSets`, `SafeHash` and
`SafeSortedSets` (which are four copies of the same Go code, differing in
the command name, the message texts, and — for `SafeHash` — the regrouping
`post` applied to each page's element array): send the paging command for
the current cursor; a send error, receive error, error-typed reply, or a
reply that is not an array of at least two values whose second value is an
array yields one error element and stops; otherwise the cursor becomes
`StringValue` of element 0, the elements of the sub-array (after `post`)
are yielded, and the loop ends when the new cursor is `"0"`. -/
def scanLoopCore (m : ScanMsgs) (post : List RedisValue → List RedisValue) :
    List Nat → List ConnEvent → List RedisValue × List (List Nat)
  | cursor, [] => ([.RedisError m.recvFailed], [cursor])
  | cursor, ev :: rest =>
    match ev with
    | .sendFail => ([.RedisError m.sendFailed], [cursor])
    | .recvFail => ([.RedisError m.recvFailed], [cursor])
    | .reply (.RedisError e) => ([.RedisError e], [cursor])
    | .reply (.RedisArray (c :: second :: _)) =>
      match second with
      | .RedisArray elems =>
        if StringValue c = [48] then (post elems, [cursor])
        else
          let next := scanLoopCore m post (StringValue c) rest
          (post elems ++ next.1, cursor :: next.2)
      | _ => ([.RedisError m.badElems], [cursor])
    | .reply _ => ([.RedisError m.badShape], [cursor])

/-- Message constants of `SafeKeys` (`SCAN`). -/
def scanMsgs : ScanMsgs where
  sendFailed := asciiBytes (r"SCAN send failed")
  recvFailed := asciiBytes (r"SCAN receive failed")
  badShape := asciiBytes (r"unexpected SCAN response format")
  badElems := asciiBytes (r"unexpected SCAN keys array format")

/-- Message constants of `SafeSets` (`SSCAN`). -/
def sscanMsgs : ScanMsgs where
  sendFailed := asciiBytes (r"SSCAN send failed")
  recvFailed := asciiBytes (r"SSCAN receive failed")
  badShape := asciiBytes (r"unexpected SSCAN response format")
  badElems := asciiBytes (r"unexpected SSCAN members array format")

/-- Message constants of `SafeHash` (`HSCAN`). -/
def hscanMsgs : ScanMsgs where
  sendFailed := asciiBytes (r"HSCAN send failed")
  recvFailed := asciiBytes (r"HSCAN receive failed")
  badShape := asciiBytes (r"unexpected HSCAN response format")
  badElems := asciiBytes (r"unexpected HSCAN fields array format")

/-- Message constants of `SafeSortedSets` (`ZSCAN`). -/
def zscanMsgs : ScanMsgs where
  sendFailed := asciiBytes (r"ZSCAN send failed")
  recvFailed := asciiBytes (r"ZSCAN receive failed")
  badShape := asciiBytes (r"unexpected ZSCAN response format")
  badElems := asciiBytes (r"unexpected ZSCAN members array format")

/-- The pair-regrouping loop of `SafeHash`:
`for i := 0; i < len; i += 2 { if i+1 < len { yield [fields[i], fields[i+1]] } }` —
adjacent elements become two-element arrays; a trailing unpaired element is
skipped. -/
def pairUp : List RedisValue → List RedisValue
  | f :: v :: rest => .RedisArray [f, v] :: pairUp rest
  | _ => []

/-- `SafeKeys(pattern)` (command `SCAN <cursor> MATCH <pattern> COUNT 100`),
elements of each page yielded individually; initial cursor `"0"`. -/
def safeKeysLoop : List Nat → List ConnEvent → List RedisValue × List (List Nat) :=
  scanLoopCore scanMsgs id

/-- `Connection.SafeKeys` with its initial cursor. -/
def SafeKeys (pattern : List Nat) (events : List ConnEvent) : List RedisValue × List (List Nat) :=
  safeKeysLoop [48] events

/-- `SafeSets(key)` (command `SSCAN <key> <cursor> COUNT 100`). -/
def safeSetsLoop : List Nat → List ConnEvent → List RedisValue × List (List Nat) :=
  scanLoopCore sscanMsgs id

/-- `Connection.SafeSets` with its initial cursor. -/
def SafeSets (key : List Nat) (events : List ConnEvent) : List RedisValue × List (List Nat) :=
  safeSetsLoop [48] events

/-- `SafeHash(key)` (command `HSCAN <key> <cursor> COUNT 100`), each page's
flat field/value array regrouped by `pairUp`. -/
def safeHashLoop : List Nat → List ConnEvent → List RedisValue × List (List Nat) :=
  scanLoopCore hscanMsgs pairUp

/-- `Connection.SafeHash` with its initial cursor. -/
def SafeHash (key : List Nat) (events : List ConnEvent) : List RedisValue × List (List Nat) :=
  safeHashLoop [48] events

/-- `SafeSortedSets(key)` (command `ZSCAN <key> <cursor> COUNT 100`),
members and scores yielded individually. -/
def safeSortedSetsLoop : List Nat → List ConnEvent → List RedisValue × List (List Nat) :=
  scanLoopCore zscanMsgs id

/-- `Connection.SafeSortedSets` with its initial cursor. -/
def SafeSortedSets (key : List Nat) (events : List ConnEvent) : List RedisValue × List (List Nat) :=
  safeSortedSetsLoop [48] events

/-- `SafeList(key)` from `subscribe.go` (command `LRANGE <key> <start>
<start+99>`): a send error, receive error, error-typed reply or non-array
reply yields one error element and stops; an empty array reply ends the
iteration; otherwise all elements are yielded and `start += 100`.  Requests
are recorded as `(start, stop)` pairs. -/
def safeListLoop : Nat → List ConnEvent → List RedisValue × List (Nat × Nat)
  | start, [] => ([.RedisError (asciiBytes (r"LRANGE receive failed"))], [(start, start + 99)])
  | start, ev :: rest =>
    match ev with
    | .sendFail => ([.RedisError (asciiBytes (r"LRANGE send failed"))], [(start, start + 99)])
    | .recvFail => ([.RedisError (asciiBytes (r"LRANGE receive failed"))], [(start, start + 99)])
    | .reply (.RedisError e) => ([.RedisError e], [(start, start + 99)])
    | .reply (.RedisArray vs) =>
      if vs.length = 0 then ([], [(start, start + 99)])
      else
        let next := safeListLoop (start + 100) rest
        (vs ++ next.1, (start, start + 99) :: next.2)
    | .reply _ => ([.RedisError (asciiBytes (r"unexpected LRANGE response format"))], [(start, start + 99)])

/-- `Connection.SafeList`, starting at index 0. -/
def SafeList (key : List Nat) (events : List ConnEvent) : List RedisValue × List (Nat × Nat) :=
  safeListLoop 0 events

/-- `SafeStream(key)` from `subscribe.go` (command `XRANGE <key> <cursor> +
COUNT 100`): error handling as for `SafeList`; an empty array reply ends
the iteration; otherwise all entries are yielded, then the last entry must
be a nonempty array — if not, one error element is yielded and the loop
stops — and the next cursor is `"("` prepended to the `StringValue` of the
last entry's first element (its id). -/
def safeStreamLoop : List Nat → List ConnEvent → List RedisValue × List (List Nat)
  | cursor, [] => ([.RedisError (asciiBytes (r"XRANGE receive failed"))], [cursor])
  | cursor, ev :: rest =>
    match ev with
    | .sendFail => ([.RedisError (asciiBytes (r"XRANGE send failed"))], [cursor])
    | .recvFail => ([.RedisError (asciiBytes (r"XRANGE receive failed"))], [cursor])
    | .reply (.RedisError e) => ([.RedisError e], [cursor])
    | .reply (.RedisArray vs) =>
      if vs.length = 0 then ([], [cursor])
      else
        match vs.getLast? with
        | some (.RedisArray (idv :: _)) =>
          let next := safeStreamLoop (40 :: StringValue idv) rest
          (vs ++ next.1, cursor :: next.2)
        | _ => (vs ++ [.RedisError (asciiBytes (r"unexpected XRANGE entry format"))], [cursor])
    | .reply _ => ([.RedisError (asciiBytes (r"unexpected XRANGE response format"))], [cursor])

/-- `Connection.SafeStream`, starting from the beginning of the stream
(cursor `"-"`). -/
def SafeStream (key : List Nat) (events : List ConnEvent) : List RedisValue × List (List Nat) :=
  safeStreamLoop [45] events

/-!
`Connection.Subscribe` (`subscribe.go`): an unbounded poll loop.  Each
iteration first checks the cancellation signal (`ctx.Err()`), then receives
with a short 200ms timeout.  One `SubTick` records what a single iteration
observes: `cancel` (the signal was set before the poll), `timeout` (the
receive timed out — `net.Error` with `Timeout() == true`), `fail` (any
other receive error), or `msg` (a received value).  The consumer drains the
sequence, so the produced sequence is a function of the tick schedule.
-/

/-- What one iteration of the `Subscribe` loop observes. -/
inductive SubTick where
  | cancel
  | timeout
  | fail (msg : List Nat)
  | msg (v : RedisValue)

/-- The sequence `Subscribe` yields for a given schedule of observations:
cancellation ends it with nothing; a timeout polls again contributing
nothing; a non-timeout receive error yields one synthetic error value and
ends it; a message is yielded and the loop continues. -/
def subscribeRun : List SubTick → List RedisValue
  | [] => []
  | .cancel :: _ => []
  | .timeout :: rest => subscribeRun rest
  | .fail m :: _ => [.RedisError m]
  | .msg v :: rest => v :: subscribeRun rest

/-!
`conn.Connect` (`connection.go`): the authentication path.  The model
records the externally visible actions in order: closing the transport,
returning an error (and no `Connection`), or returning the established
`Connection`.  The `user` argument only selects the legacy or the ACL form
of the `AUTH` command and does not influence the control flow; `INFO`
retrieval after a successful handshake is non-fatal and never changes the
returned action.
-/

/-- Externally visible outcome steps of `Connect`. -/
inductive ConnAction where
  | closeTransport
  | returnError
  | returnConnection
deriving DecidableEq

/-- The ASCII bytes of the simple string `OK`. -/
def strOK : List Nat := [79, 75]

/-- The action trace of `Connect(host, port, user, pass)`: if dialing fails
the error is returned (no transport to close); with an empty password no
handshake occurs; otherwise a send failure, receive failure, error-typed
reply, or any reply other than the simple string `OK` closes the transport
and then returns an error; only the reply `+OK` proceeds to return the
connection. -/
def connectTrace (user pass : List Nat) (dialFails sendFails : Bool)
    (authRecv : Option RedisValue) : List ConnAction :=
  if dialFails then [.returnError]
  else if pass = [] then [.returnConnection]
  else if sendFails then [.closeTransport, .returnError]
  else
    match authRecv with
    | none => [.closeTransport, .returnError]
    | some (.RedisError _) => [.closeTransport, .returnError]
    | some (.RedisString s) =>
      if s = strOK then [.returnConnection] else [.closeTransport, .returnError]
    | some _ => [.closeTransport, .returnError]

/-!  Event classifications used to state the iterator error-handling
properties, and concrete data used by the witnesses. -/

/-- Interleaving of two equal-length lists `f1, v1, f2, v2, ...` — the flat
alternating field/value shape of an `HSCAN` reply page. -/
def interleave : List RedisValue → List RedisValue → List RedisValue
  | f :: fs, v :: vs => f :: v :: interleave fs vs
  | _, _ => []

/-- A scan-family page reply that the loop accepts and continues after: an
array of at least two values whose second value is an array, carrying a
next cursor different from `"0"`. -/
def goodScanPage : ConnEvent → Bool
  | .reply (.RedisArray (c :: .RedisArray _ :: _)) => decide (StringValue c ≠ [48])
  | _ => false

/-- The raw element array of a well-shaped scan page. -/
def scanPageRaw : ConnEvent → List RedisValue
  | .reply (.RedisArray (_ :: .RedisArray ks :: _)) => ks
  | _ => []

/-- A failing scan-family event: send failure, receive failure, error-typed
reply, or a reply without the `[cursor, [elements...]]` shape. -/
def badScanEvent : ConnEvent → Bool
  | .reply (.RedisArray (_ :: .RedisArray _ :: _)) => false
  | _ => true

/-- A list-range page reply that the loop accepts and continues after: a
nonempty array. -/
def goodListPage : ConnEvent → Bool
  | .reply (.RedisArray vs) => decide (vs.length ≠ 0)
  | _ => false

/-- The elements of an array-shaped page (list range and stream range). -/
def arrayPageElems : ConnEvent → List RedisValue
  | .reply (.RedisArray vs) => vs
  | _ => []

/-- A failing list-range event: send failure, receive failure, error-typed
reply, or a non-array reply. -/
def badListEvent : ConnEvent → Bool
  | .reply (.RedisArray _) => false
  | _ => true

/-- A stream-range page reply that the loop accepts and continues after: a
nonempty array whose last entry is a nonempty array. -/
def goodStreamPage : ConnEvent → Bool
  | .reply (.RedisArray vs) =>
    decide (vs.length ≠ 0) &&
      (match vs.getLast? with
       | some (.RedisArray (_ :: _)) => true
       | _ => false)
  | _ => false

/-- A failing stream-range event checked before any yielding: send failure,
receive failure, error-typed reply, or a non-array reply. -/
def badStreamEvent : ConnEvent → Bool
  | .reply (.RedisArray _) => false
  | _ => true

/-- A nonempty stream-range array reply whose last entry is not a nonempty
array: the code detects this only after yielding the page's entries. -/
def malformedStreamPage : ConnEvent → Bool
  | .reply (.RedisArray vs) =>
    decide (vs.length ≠ 0) &&
      (match vs.getLast? with
       | some (.RedisArray (_ :: _)) => false
       | _ => true)
  | _ => false

/-- The slice a Redis server answers for `LRANGE key start stop`
(zero-based, inclusive, clamped at the end of the list). -/
def lrangeSlice (L : List RedisValue) (start stop : Nat) : List RedisValue :=
  (L.drop start).take (stop - start + 1)

/-- The reply events of a server holding the list `L` and answering every
`LRANGE` request of `SafeList` with the requested slice, for the four
windows `0-99`, `100-199`, `200-299`, `300-399`. -/
def lrange250Events (L : List RedisValue) : List ConnEvent :=
  [.reply (.RedisArray (lrangeSlice L 0 99)), .reply (.RedisArray (lrangeSlice L 100 199)),
   .reply (.RedisArray (lrangeSlice L 200 299)), .reply (.RedisArray (lrangeSlice L 300 399))]

/-- A concrete 250-element list. -/
def c1List : List RedisValue := (List.range 250).map (fun (n : Nat) => .RedisInteger (n : Int))

/-- A concrete well-formed value with three levels of array nesting, all
five type tags, and a binary bulk payload containing `0x00 0x01 0x02 0xff`. -/
def deepValue : RedisValue :=
  .RedisArray
    [.RedisArray
      [.RedisArray [.RedisBulkString [0, 1, 2, 255] 4, .RedisInteger (-42)],
       .RedisString [79, 75]],
     .RedisError [69, 82, 82],
     .RedisNull]


/-- Three concrete hash fields (ASCII `f1`, `f2`, `f3`). -/
def c6Fields : List RedisValue :=
  [.RedisBulkString [102, 49] 2, .RedisBulkString [102, 50] 2, .RedisBulkString [102, 51] 2]

/-- Three concrete hash values (ASCII `v1`, `v2`, `v3`). -/
def c6Values : List RedisValue :=
  [.RedisBulkString [118, 49] 2, .RedisBulkString [118, 50] 2, .RedisBulkString [118, 51] 2]

/-!  Arithmetic facts about the decimal rendering and `atoi`. -/

theorem rawDigits_lt_ten : ∀ (f n d : Nat), d ∈ rawDigits f n → d < 10 := by
  intro f
  induction f with
  | zero => intro n d h; simp [rawDigits] at h
  | succ f ih =>
    intro n d h
    match n with
    | 0 => simp [rawDigits] at h
    | n + 1 =>
      rw [rawDigits] at h
      rcases List.mem_cons.mp h with h1 | h2
      · subst h1; exact Nat.mod_lt _ (by omega)
      · exact ih _ _ h2

theorem valLE_rawDigits : ∀ (f n : Nat), n ≤ f → valLE (rawDigits f n) = n := by
  intro f
  induction f with
  | zero => intro n h; interval_cases n; simp [rawDigits, valLE]
  | succ f ih =>
    intro n h
    match n with
    | 0 => simp [rawDigits, valLE]
    | n + 1 =>
      rw [rawDigits, valLE]
      have hdiv : (n + 1) / 10 ≤ f := by
        have := Nat.div_lt_self (Nat.succ_pos n) (by omega : 1 < 10)
        omega
      rw [ih _ hdiv]
      exact Nat.mod_add_div (n + 1) 10

theorem foldl_rev_digits : ∀ (dl : List Nat) (a : Nat),
    ((dl.map (fun d => d + 48)).reverse).foldl (fun acc b => acc * 10 + (b - 48)) a
      = a * 10 ^ dl.length + valLE dl := by
  intro dl
  induction dl with
  | nil => intro a; simp [valLE]
  | cons d dl ih =>
    intro a
    simp only [List.map_cons, List.reverse_cons, List.foldl_append, List.foldl_cons,
      List.foldl_nil, ih, valLE, List.length_cons]
    have : d + 48 - 48 = d := by omega
    rw [this]
    ring

theorem digitsToNat_natDec (n : Nat) : digitsToNat (natDecBytes n) = n := by
  unfold natDecBytes digitsToNat
  by_cases h : n = 0
  · subst h; simp
  · rw [if_neg h, foldl_rev_digits, valLE_rawDigits n n le_rfl]
    simp

theorem natDec_mem_digit {n b : Nat} (h : b ∈ natDecBytes n) : 48 ≤ b ∧ b ≤ 57 := by
  unfold natDecBytes at h
  by_cases h0 : n = 0
  · rw [if_pos h0] at h
    simp at h
    omega
  · rw [if_neg h0] at h
    rw [List.mem_reverse, List.mem_map] at h
    obtain ⟨d, hd, rfl⟩ := h
    have := rawDigits_lt_ten n n d hd
    omega

theorem natDec_ne_nil (n : Nat) : natDecBytes n ≠ [] := by
  unfold natDecBytes
  by_cases h0 : n = 0
  · rw [if_pos h0]; simp
  · rw [if_neg h0]
    simp only [ne_eq, List.reverse_eq_nil_iff, List.map_eq_nil_iff]
    match n, h0 with
    | n + 1, _ => rw [rawDigits]; simp

theorem natDec_all_digits (n : Nat) : (natDecBytes n).all isDigitB = true := by
  rw [List.all_eq_true]
  intro b hb
  have := natDec_mem_digit hb
  simp [isDigitB]
  omega

theorem parseDigits_natDec (n : Nat) : parseDigits (natDecBytes n) = some (n : Nat) := by
  unfold parseDigits
  rw [if_pos ⟨natDec_ne_nil n, natDec_all_digits n⟩, digitsToNat_natDec]

theorem parseSign_natDec (n : Nat) : parseSign (natDecBytes n) = (false, natDecBytes n) := by
  rcases h : natDecBytes n with _ | ⟨b, t⟩
  · exact absurd h (natDec_ne_nil n)
  · have hb : 48 ≤ b ∧ b ≤ 57 := natDec_mem_digit (h ▸ List.mem_cons_self b t)
    obtain ⟨hb1, hb2⟩ := hb
    simp only [parseSign]
    rw [if_neg (by omega), if_neg (by omega)]

theorem atoi_natDec {n : Nat} (h : n < 2 ^ 63) : atoi (natDecBytes n) = some (n : Int) := by
  simp only [atoi, parseSign_natDec, parseDigits_natDec, atoiVal, Bool.false_eq_true,
    if_false]
  rw [if_pos]
  refine ⟨?_, ?_⟩
  · have h0 : (0 : Int) ≤ (n : Int) := Int.ofNat_nonneg n
    have h63 : ((2 : Int) ^ 63) = 9223372036854775808 := by norm_num
    omega
  · exact_mod_cast h

theorem atoi_intDec (i : Int) :
    atoi (intDecBytes i) = if -(2 ^ 63) ≤ i ∧ i < 2 ^ 63 then some i else none := by
  unfold intDecBytes
  by_cases hneg : i < 0
  · rw [if_pos hneg]
    have h45 : parseSign (45 :: natDecBytes i.natAbs) = (true, natDecBytes i.natAbs) := by
      simp only [parseSign]
      norm_num
    have hival : atoiVal true i.natAbs = i := by
      simp only [atoiVal, if_true, if_pos rfl]
      rw [Int.ofNat_natAbs_of_nonpos (le_of_lt hneg)]
      ring
    simp only [atoi, h45, parseDigits_natDec, hival]
  · rw [if_neg hneg]
    have hival : atoiVal false i.natAbs = i := by
      simp only [atoiVal, Bool.false_eq_true, if_false]
      exact Int.natAbs_of_nonneg (le_of_not_lt hneg)
    simp only [atoi, parseSign_natDec, parseDigits_natDec, hival]

/-!  Framing facts about `readLine`. -/

theorem readStringNl_append {l : List Nat} (h : ∀ b ∈ l, b ≠ 10) (rest : List Nat) :
    readStringNl (l ++ 10 :: rest) = some (l ++ [10], rest) := by
  induction l with
  | nil => simp [readStringNl]
  | cons b t ih =>
    have hb : b ≠ 10 := h b (List.mem_cons_self b t)
    simp only [List.cons_append, readStringNl, if_neg hb, List.append_eq]
    rw [ih (fun x hx => h x (List.mem_cons_of_mem b hx))]

theorem stripCRLF_append (l : List Nat) : stripCRLF (l ++ [13, 10]) = l := by
  unfold stripCRLF
  have : (l ++ [13, 10]).reverse = 10 :: 13 :: l.reverse := by
    simp
  rw [this]
  simp

theorem readLine_crlf {l : List Nat} (h : ∀ b ∈ l, b ≠ 10) (rest : List Nat) :
    readLine (l ++ 13 :: 10 :: rest) = .ok (l, rest) := by
  unfold readLine
  have h2 : ∀ b ∈ l ++ [13], b ≠ 10 := by
    intro b hb
    rcases List.mem_append.mp hb with h3 | h3
    · exact h b h3
    · simp at h3; omega
  have h3 : l ++ 13 :: 10 :: rest = (l ++ [13]) ++ 10 :: rest := by simp
  rw [h3, readStringNl_append h2]
  have h4 : (l ++ [13]) ++ [10] = l ++ [13, 10] := by simp
  rw [h4]
  simp [stripCRLF_append]

theorem natDec_no_lf (n : Nat) : ∀ b ∈ natDecBytes n, b ≠ 10 := by
  intro b hb
  have := natDec_mem_digit hb
  omega

theorem intDec_no_lf (i : Int) : ∀ b ∈ intDecBytes i, b ≠ 10 := by
  intro b hb
  unfold intDecBytes at hb
  by_cases hneg : i < 0
  · rw [if_pos hneg] at hb
    rcases List.mem_cons.mp hb with h1 | h2
    · omega
    · exact natDec_no_lf _ b h2
  · rw [if_neg hneg] at hb
    exact natDec_no_lf _ b hb

/-!  Framing facts about the decoders. -/

theorem parseValueF_succ (f : Nat) (b : Nat) (t : List Nat) :
    parseValueF (f + 1) (b :: t) =
      if b = 43 then parseSimpleString t
      else if b = 45 then parseError t
      else if b = 58 then parseInteger t
      else if b = 36 then parseBulkString t
      else if b = 42 then parseArrayWith (parseValueF f) t
      else .error (r"unknown RESP type byte") := by
  simp [parseValueF]

theorem ParseValue_cons (b : Nat) (t : List Nat) :
    ParseValue (b :: t) = parseValueF (t.length + 1 + 1) (b :: t) := rfl

theorem parseSimpleString_frame {s : List Nat} (h : ∀ b ∈ s, b ≠ 10) (rest : List Nat) :
    parseSimpleString (s ++ 13 :: 10 :: rest) = .ok (.RedisString s, rest) := by
  simp [parseSimpleString, readLine_crlf h]

theorem parseError_frame {s : List Nat} (h : ∀ b ∈ s, b ≠ 10) (rest : List Nat) :
    parseError (s ++ 13 :: 10 :: rest) = .ok (.RedisError s, rest) := by
  simp [parseError, readLine_crlf h]

theorem parseInteger_frame {i : Int} (h1 : -(2 ^ 63) ≤ i) (h2 : i < 2 ^ 63) (rest : List Nat) :
    parseInteger (intDecBytes i ++ 13 :: 10 :: rest) = .ok (.RedisInteger i, rest) := by
  simp only [parseInteger, readLine_crlf (intDec_no_lf i), atoi_intDec, if_pos (And.intro h1 h2)]

theorem parseBulkString_frame (payload : List Nat) (c1 c2 : Nat) (rest : List Nat)
    (h : payload.length < 2 ^ 63) :
    parseBulkString (natDecBytes payload.length ++ 13 :: 10 :: (payload ++ c1 :: c2 :: rest))
      = if c1 = 13 ∧ c2 = 10
        then .ok (.RedisBulkString payload (payload.length : Int), rest)
        else .error (r"expected CRLF after bulk string payload") := by
  have hne1 : ¬((payload.length : Int) = -1) := by omega
  have hne2 : ¬((payload.length : Int) < -1) := by omega
  have hlen : (payload.length : Int).toNat = payload.length := Int.toNat_ofNat _
  have hle : payload.length ≤ (payload ++ c1 :: c2 :: rest).length := by
    simp [List.length_append]
  have hdrop : (payload ++ c1 :: c2 :: rest).drop payload.length = c1 :: c2 :: rest :=
    List.drop_left payload _
  have htake : (payload ++ c1 :: c2 :: rest).take payload.length = payload :=
    List.take_left payload _
  simp only [parseBulkString, readLine_crlf (natDec_no_lf payload.length), atoi_natDec h,
    if_neg hne1, if_neg hne2, hlen, if_pos hle, hdrop, htake]

theorem parseBulkString_neg {i : Int} (hi : i < -1) (rest : List Nat) :
    ∃ e, parseBulkString (intDecBytes i ++ 13 :: 10 :: rest) = .error e := by
  simp only [parseBulkString, readLine_crlf (intDec_no_lf i), atoi_intDec]
  by_cases hr : -(2 ^ 63) ≤ i ∧ i < 2 ^ 63
  · rw [if_pos hr]
    simp only [if_neg (by omega : ¬(i = -1)), if_pos hi]
    exact ⟨_, rfl⟩
  · rw [if_neg hr]
    exact ⟨_, rfl⟩

theorem parseArrayWith_neg {i : Int} (hi : i < -1) (p : List Nat → ParseResult) (rest : List Nat) :
    ∃ e, parseArrayWith p (intDecBytes i ++ 13 :: 10 :: rest) = .error e := by
  simp only [parseArrayWith, readLine_crlf (intDec_no_lf i), atoi_intDec]
  by_cases hr : -(2 ^ 63) ≤ i ∧ i < 2 ^ 63
  · rw [if_pos hr]
    simp only [if_neg (by omega : ¬(i = -1)), if_pos hi]
    exact ⟨_, rfl⟩
  · rw [if_neg hr]
    exact ⟨_, rfl⟩

/-!  Unfolding equations for the well-founded recursive definitions. -/

theorem encodeValue_arr (vs : List RedisValue) :
    encodeValue (.RedisArray vs)
      = 42 :: natDecBytes vs.length ++ [13, 10] ++ (vs.map encodeValue).flatten := by
  rw [encodeValue]
  rw [List.attach_map_val vs encodeValue]

theorem wfValue_arr (vs : List RedisValue) :
    wfValue (.RedisArray vs) = (decide (vs.length < 2 ^ 63) && vs.all wfValue) := by
  rw [wfValue, Bool.eq_iff_iff]
  simp only [Bool.and_eq_true, List.all_eq_true, List.mem_attach, true_implies, Subtype.forall]

theorem vsize_arr (vs : List RedisValue) :
    vsize (.RedisArray vs) = 1 + (vs.map vsize).sum := by
  rw [vsize]
  rw [List.attach_map_val vs vsize]

theorem vsize_child_le {u : RedisValue} {vs : List RedisValue} (h : u ∈ vs) :
    vsize u ≤ (vs.map vsize).sum :=
  List.single_le_sum (fun _ _ => Nat.zero_le _) _ (List.mem_map_of_mem vsize h)

/-!  Round-trip: decoding the canonical encoding of a well-formed value. -/

theorem parseElems_encode (p : List Nat → ParseResult) :
    ∀ (l : List RedisValue),
      (∀ u ∈ l, ∀ r, p (encodeValue u ++ r) = .ok (u, r)) →
      ∀ rest, parseElems p l.length ((l.map encodeValue).flatten ++ rest) = .ok (l, rest) := by
  intro l
  induction l with
  | nil => intro _ rest; simp [parseElems]
  | cons u l ih =>
    intro h rest
    have hu := h u (List.mem_cons_self u l)
    have hl : ∀ w ∈ l, ∀ r, p (encodeValue w ++ r) = .ok (w, r) :=
      fun w hw => h w (List.mem_cons_of_mem u hw)
    have harr : (((u :: l).map encodeValue).flatten ++ rest)
        = encodeValue u ++ ((l.map encodeValue).flatten ++ rest) := by
      simp
    rw [List.length_cons, parseElems, harr]
    simp only [hu, ih hl]

theorem roundtrip_aux : ∀ (k : Nat) (v : RedisValue), vsize v ≤ k → wfValue v = true →
    ∀ (f : Nat), vsize v ≤ f → ∀ rest, parseValueF f (encodeValue v ++ rest) = .ok (v, rest) := by
  intro k
  induction k with
  | zero =>
    intro v hk
    exfalso
    cases v <;> simp [vsize, vsize_arr] at hk
  | succ k ih =>
    intro v hk hwf f hf rest
    have hf1 : 1 ≤ vsize v := by
      cases v <;> simp [vsize, vsize_arr]
    obtain ⟨f, rfl⟩ : ∃ g, f = g + 1 := ⟨f - 1, by omega⟩
    cases v with
    | RedisString s =>
      have hs : ∀ b ∈ s, b ≠ 10 := by
        rw [wfValue] at hwf
        intro b hb
        simp at hwf
        intro hb10
        exact hwf (hb10 ▸ hb)
      have henc : encodeValue (.RedisString s) ++ rest = 43 :: (s ++ 13 :: 10 :: rest) := by
        simp [encodeValue]
      rw [henc, parseValueF_succ]
      norm_num
      exact parseSimpleString_frame hs rest
    | RedisError e =>
      have hs : ∀ b ∈ e, b ≠ 10 := by
        rw [wfValue] at hwf
        intro b hb
        simp at hwf
        intro hb10
        exact hwf (hb10 ▸ hb)
      have henc : encodeValue (.RedisError e) ++ rest = 45 :: (e ++ 13 :: 10 :: rest) := by
        simp [encodeValue]
      rw [henc, parseValueF_succ]
      norm_num
      exact parseError_frame hs rest
    | RedisInteger i =>
      rw [wfValue] at hwf
      simp only [decide_eq_true_eq] at hwf
      have henc : encodeValue (.RedisInteger i) ++ rest
          = 58 :: (intDecBytes i ++ 13 :: 10 :: rest) := by
        simp [encodeValue]
      rw [henc, parseValueF_succ]
      norm_num
      exact parseInteger_frame hwf.1 hwf.2 rest
    | RedisBulkString b length =>
      rw [wfValue] at hwf
      simp only [decide_eq_true_eq] at hwf
      obtain ⟨hlen, hb63⟩ := hwf
      subst hlen
      have henc : encodeValue (.RedisBulkString b (b.length : Int)) ++ rest
          = 36 :: (natDecBytes b.length ++ 13 :: 10 :: (b ++ 13 :: 10 :: rest)) := by
        simp [encodeValue]
      rw [henc, parseValueF_succ]
      norm_num
      rw [parseBulkString_frame b 13 10 rest hb63, if_pos ⟨rfl, rfl⟩]
    | RedisNull =>
      have hid : intDecBytes (-1) = [45, 49] := by decide
      have henc : encodeValue .RedisNull ++ rest
          = 36 :: (intDecBytes (-1) ++ 13 :: 10 :: rest) := by
        rw [hid]
        simp [encodeValue]
      rw [henc, parseValueF_succ]
      norm_num
      simp only [parseBulkString, readLine_crlf (intDec_no_lf (-1)), atoi_intDec,
        if_pos (by norm_num : -(2 ^ 63) ≤ (-1 : Int) ∧ (-1 : Int) < 2 ^ 63)]
      simp
    | RedisArray vs =>
      rw [wfValue_arr] at hwf
      simp only [Bool.and_eq_true, decide_eq_true_eq, List.all_eq_true] at hwf
      obtain ⟨h63, hall⟩ := hwf
      rw [vsize_arr] at hk hf
      have henc : encodeValue (.RedisArray vs) ++ rest
          = 42 :: (natDecBytes vs.length ++ 13 :: 10 :: ((vs.map encodeValue).flatten ++ rest)) := by
        rw [encodeValue_arr]
        simp
      rw [henc, parseValueF_succ]
      norm_num
      have hchild : ∀ u ∈ vs, ∀ r, parseValueF f (encodeValue u ++ r) = .ok (u, r) := by
        intro u hu r
        have hle := vsize_child_le hu
        exact ih u (by omega) (hall u hu) f (by omega) r
      have hcount : ¬((vs.length : Int) = -1) := by omega
      have hcount2 : ¬((vs.length : Int) < -1) := by omega
      have hlen : (vs.length : Int).toNat = vs.length := Int.toNat_ofNat _
      simp only [parseArrayWith, readLine_crlf (natDec_no_lf vs.length), atoi_natDec h63,
        if_neg hcount, if_neg hcount2, hlen, parseElems_encode (parseValueF f) vs hchild rest]

theorem natDec_length_pos (n : Nat) : 1 ≤ (natDecBytes n).length := by
  rcases h : natDecBytes n with _ | ⟨b, t⟩
  · exact absurd h (natDec_ne_nil n)
  · simp

theorem vsize_le_enc : ∀ (k : Nat) (v : RedisValue), vsize v ≤ k →
    vsize v ≤ (encodeValue v).length := by
  intro k
  induction k with
  | zero =>
    intro v hk
    exfalso
    cases v <;> simp [vsize, vsize_arr] at hk
  | succ k ih =>
    intro v hk
    cases v with
    | RedisArray vs =>
      rw [vsize_arr] at hk ⊢
      rw [encodeValue_arr]
      have hsum : (vs.map vsize).sum ≤ (vs.map (fun u => (encodeValue u).length)).sum := by
        apply List.sum_le_sum
        intro u hu
        have := vsize_child_le hu
        exact ih u (by omega)
      have hflat : ((vs.map encodeValue).flatten).length
          = (vs.map (fun u => (encodeValue u).length)).sum := by
        rw [List.length_flatten, List.map_map]
        rfl
      have hdec := natDec_length_pos vs.length
      simp only [List.length_cons, List.length_append]
      omega
    | RedisString s =>
      simp [vsize, encodeValue]
    | RedisError e =>
      simp [vsize, encodeValue]
    | RedisInteger i =>
      simp [vsize, encodeValue]
    | RedisBulkString b length =>
      simp [vsize, encodeValue]
    | RedisNull =>
      simp [vsize, encodeValue]

theorem ParseValue_encode {v : RedisValue} (h : wfValue v = true) :
    ParseValue (encodeValue v) = .ok (v, []) := by
  have hle := vsize_le_enc (vsize v) v le_rfl
  have hrt := roundtrip_aux (vsize v) v le_rfl h ((encodeValue v).length + 1) (by omega) []
  rw [List.append_nil] at hrt
  exact hrt

theorem sendRaw_eq_encode (args : List (List Nat)) :
    sendRawBytes args
      = encodeValue (.RedisArray (args.map (fun a => .RedisBulkString a (a.length : Int)))) := by
  rw [encodeValue_arr]
  rw [List.length_map, List.map_map]
  have hmap : args.map (encodeValue ∘ fun a => RedisValue.RedisBulkString a (a.length : Int))
      = args.map (fun b => 36 :: natDecBytes b.length ++ [13, 10] ++ b ++ [13, 10]) := by
    apply List.map_congr_left
    intro a _
    simp [encodeValue]
  rw [hmap]
  rfl

theorem wf_sendRawValue (args : List (List Nat)) (h1 : args.length < 2 ^ 63)
    (h2 : ∀ a ∈ args, a.length < 2 ^ 63) :
    wfValue (.RedisArray (args.map (fun a => .RedisBulkString a (a.length : Int)))) = true := by
  rw [wfValue_arr]
  simp only [Bool.and_eq_true, decide_eq_true_eq, List.length_map, List.all_eq_true]
  refine ⟨h1, ?_⟩
  intro v hv
  rw [List.mem_map] at hv
  obtain ⟨a, ha, rfl⟩ := hv
  rw [wfValue]
  simp only [decide_eq_true_eq]
  exact ⟨trivial, h2 a ha⟩

/-!  The hash-scan pair regrouping. -/

theorem pairUp_interleave : ∀ (fs vs : List RedisValue), fs.length = vs.length →
    pairUp (interleave fs vs) = (fs.zip vs).map (fun p => RedisValue.RedisArray [p.1, p.2]) := by
  intro fs
  induction fs with
  | nil =>
    intro vs h
    cases vs with
    | nil => simp [interleave, pairUp]
    | cons v vs => simp at h
  | cons f fs ih =>
    intro vs h
    cases vs with
    | nil => simp at h
    | cons v vs =>
      simp only [interleave, pairUp, List.zip_cons_cons, List.map_cons]
      rw [ih vs (by simpa using h)]

theorem pairUp_interleave_snoc : ∀ (fs vs : List RedisValue), fs.length = vs.length →
    ∀ x, pairUp (interleave fs vs ++ [x]) = pairUp (interleave fs vs) := by
  intro fs
  induction fs with
  | nil =>
    intro vs h x
    cases vs with
    | nil => simp [interleave, pairUp]
    | cons v vs => simp at h
  | cons f fs ih =>
    intro vs h x
    cases vs with
    | nil => simp at h
    | cons v vs =>
      simp only [interleave, List.cons_append, pairUp, List.append_eq]
      rw [ih vs (by simpa using h) x]

/-!  Page-level behavior of the list-range loop. -/

theorem safeListLoop_good_page (start : Nat) (vs : List RedisValue) (h : vs ≠ [])
    (rest : List ConnEvent) :
    safeListLoop start (.reply (.RedisArray vs) :: rest)
      = (vs ++ (safeListLoop (start + 100) rest).1,
         (start, start + 99) :: (safeListLoop (start + 100) rest).2) := by
  simp only [safeListLoop]
  rw [if_neg (by simpa using h)]

theorem safeListLoop_empty_page (start : Nat) (rest : List ConnEvent) :
    safeListLoop start (.reply (.RedisArray []) :: rest) = ([], [(start, start + 99)]) := by
  simp [safeListLoop]

theorem safeList_250 (L : List RedisValue) (h : L.length = 250) (extra : List ConnEvent) :
    safeListLoop 0 (lrange250Events L ++ extra)
      = (L, [(0, 99), (100, 199), (200, 299), (300, 399)]) := by
  have h0 : lrangeSlice L 0 99 = L.take 100 := by simp [lrangeSlice]
  have h1 : lrangeSlice L 100 199 = (L.drop 100).take 100 := by
    simp [lrangeSlice]
  have h2 : lrangeSlice L 200 299 = L.drop 200 := by
    rw [lrangeSlice]
    have : 299 - 200 + 1 = 100 := by norm_num
    rw [this]
    apply List.take_of_length_le
    simp [h]
  have h3 : lrangeSlice L 300 399 = [] := by
    rw [lrangeSlice, List.drop_eq_nil_of_le (by omega)]
    simp
  have hl0 : (L.take 100).length = 100 := by simp [h]
  have hl1 : ((L.drop 100).take 100).length = 100 := by simp [h]
  have hl2 : (L.drop 200).length = 50 := by simp [h]
  have hne0 : L.take 100 ≠ [] := by
    intro hc
    rw [hc] at hl0
    simp at hl0
  have hne1 : (L.drop 100).take 100 ≠ [] := by
    intro hc
    rw [hc] at hl1
    simp at hl1
  have hne2 : L.drop 200 ≠ [] := by
    intro hc
    rw [hc] at hl2
    simp at hl2
  have hy : L.take 100 ++ ((L.drop 100).take 100 ++ (L.drop 200 ++ [])) = L := by
    rw [List.append_nil]
    have hdd : L.drop 200 = (L.drop 100).drop 100 := by
      rw [List.drop_drop]
    rw [hdd, List.take_append_drop, List.take_append_drop]
  simp only [lrange250Events, h0, h1, h2, h3, List.cons_append, List.nil_append]
  rw [safeListLoop_good_page 0 _ hne0, safeListLoop_good_page 100 _ hne1,
    safeListLoop_good_page 200 _ hne2, safeListLoop_empty_page]
  simp only [hy]

/-!  Terminal-error behavior of the iterators. -/

theorem scanLoopCore_bad (m : ScanMsgs) (post : List RedisValue → List RedisValue)
    (cursor : List Nat) {bad : ConnEvent} (hbad : badScanEvent bad = true)
    (rest : List ConnEvent) :
    ∃ e, isErrorValue e = true ∧ (scanLoopCore m post cursor (bad :: rest)).1 = [e] := by
  cases bad with
  | sendFail => exact ⟨.RedisError m.sendFailed, rfl, by simp [scanLoopCore]⟩
  | recvFail => exact ⟨.RedisError m.recvFailed, rfl, by simp [scanLoopCore]⟩
  | reply v =>
    cases v with
    | RedisError e => exact ⟨.RedisError e, rfl, by simp [scanLoopCore]⟩
    | RedisString s => exact ⟨.RedisError m.badShape, rfl, by simp [scanLoopCore]⟩
    | RedisBulkString b len => exact ⟨.RedisError m.badShape, rfl, by simp [scanLoopCore]⟩
    | RedisInteger i => exact ⟨.RedisError m.badShape, rfl, by simp [scanLoopCore]⟩
    | RedisNull => exact ⟨.RedisError m.badShape, rfl, by simp [scanLoopCore]⟩
    | RedisArray vs =>
      rcases vs with _ | ⟨c, _ | ⟨second, t⟩⟩
      · exact ⟨.RedisError m.badShape, rfl, by simp [scanLoopCore]⟩
      · exact ⟨.RedisError m.badShape, rfl, by simp [scanLoopCore]⟩
      · cases second with
        | RedisArray ks => simp [badScanEvent] at hbad
        | RedisString s => exact ⟨.RedisError m.badElems, rfl, by simp [scanLoopCore]⟩
        | RedisBulkString b len => exact ⟨.RedisError m.badElems, rfl, by simp [scanLoopCore]⟩
        | RedisInteger i => exact ⟨.RedisError m.badElems, rfl, by simp [scanLoopCore]⟩
        | RedisError e2 => exact ⟨.RedisError m.badElems, rfl, by simp [scanLoopCore]⟩
        | RedisNull => exact ⟨.RedisError m.badElems, rfl, by simp [scanLoopCore]⟩

theorem scanLoopCore_error_tail (m : ScanMsgs) (post : List RedisValue → List RedisValue) :
    ∀ (goods : List ConnEvent) (bad : ConnEvent) (rest : List ConnEvent) (cursor : List Nat),
      goods.all goodScanPage = true → badScanEvent bad = true →
      ∃ e, isErrorValue e = true ∧
        (scanLoopCore m post cursor (goods ++ bad :: rest)).1
          = (goods.map (fun g => post (scanPageRaw g))).flatten ++ [e] := by
  intro goods
  induction goods with
  | nil =>
    intro bad rest cursor _ hbad
    obtain ⟨e, he, heq⟩ := scanLoopCore_bad m post cursor hbad rest
    exact ⟨e, he, by simpa using heq⟩
  | cons g goods ih =>
    intro bad rest cursor hall hbad
    rw [List.all_cons, Bool.and_eq_true] at hall
    obtain ⟨hg, hall2⟩ := hall
    cases g with
    | sendFail => simp [goodScanPage] at hg
    | recvFail => simp [goodScanPage] at hg
    | reply v =>
      cases v with
      | RedisString s => simp [goodScanPage] at hg
      | RedisBulkString b len => simp [goodScanPage] at hg
      | RedisInteger i => simp [goodScanPage] at hg
      | RedisError e2 => simp [goodScanPage] at hg
      | RedisNull => simp [goodScanPage] at hg
      | RedisArray vs =>
        rcases vs with _ | ⟨c, _ | ⟨second, t⟩⟩
        · simp [goodScanPage] at hg
        · simp [goodScanPage] at hg
        · cases second with
          | RedisString s => simp [goodScanPage] at hg
          | RedisBulkString b len => simp [goodScanPage] at hg
          | RedisInteger i => simp [goodScanPage] at hg
          | RedisError e2 => simp [goodScanPage] at hg
          | RedisNull => simp [goodScanPage] at hg
          | RedisArray ks =>
            have hc : StringValue c ≠ [48] := by
              simpa [goodScanPage] using hg
            obtain ⟨e, he, heq⟩ := ih bad rest (StringValue c) hall2 hbad
            refine ⟨e, he, ?_⟩
            rw [List.map_cons, List.flatten_cons, List.append_assoc, ← heq]
            simp only [List.cons_append, scanLoopCore, if_neg hc, List.append_eq, scanPageRaw]

theorem safeListLoop_bad {bad : ConnEvent} (hbad : badListEvent bad = true) (start : Nat)
    (rest : List ConnEvent) :
    ∃ e, isErrorValue e = true ∧ (safeListLoop start (bad :: rest)).1 = [e] := by
  cases bad with
  | sendFail =>
    exact ⟨.RedisError (asciiBytes (r"LRANGE send failed")), rfl, by simp [safeListLoop]⟩
  | recvFail =>
    exact ⟨.RedisError (asciiBytes (r"LRANGE receive failed")), rfl, by simp [safeListLoop]⟩
  | reply v =>
    cases v with
    | RedisError e => exact ⟨.RedisError e, rfl, by simp [safeListLoop]⟩
    | RedisString s =>
      exact ⟨.RedisError (asciiBytes (r"unexpected LRANGE response format")), rfl,
        by simp [safeListLoop]⟩
    | RedisBulkString b len =>
      exact ⟨.RedisError (asciiBytes (r"unexpected LRANGE response format")), rfl,
        by simp [safeListLoop]⟩
    | RedisInteger i =>
      exact ⟨.RedisError (asciiBytes (r"unexpected LRANGE response format")), rfl,
        by simp [safeListLoop]⟩
    | RedisNull =>
      exact ⟨.RedisError (asciiBytes (r"unexpected LRANGE response format")), rfl,
        by simp [safeListLoop]⟩
    | RedisArray vs => simp [badListEvent] at hbad

theorem safeListLoop_error_tail :
    ∀ (goods : List ConnEvent) (bad : ConnEvent) (rest : List ConnEvent) (start : Nat),
      goods.all goodListPage = true → badListEvent bad = true →
      ∃ e, isErrorValue e = true ∧
        (safeListLoop start (goods ++ bad :: rest)).1
          = (goods.map arrayPageElems).flatten ++ [e] := by
  intro goods
  induction goods with
  | nil =>
    intro bad rest start _ hbad
    obtain ⟨e, he, heq⟩ := safeListLoop_bad hbad start rest
    exact ⟨e, he, by simpa using heq⟩
  | cons g goods ih =>
    intro bad rest start hall hbad
    rw [List.all_cons, Bool.and_eq_true] at hall
    obtain ⟨hg, hall2⟩ := hall
    cases g with
    | sendFail => simp [goodListPage] at hg
    | recvFail => simp [goodListPage] at hg
    | reply v =>
      cases v with
      | RedisString s => simp [goodListPage] at hg
      | RedisBulkString b len => simp [goodListPage] at hg
      | RedisInteger i => simp [goodListPage] at hg
      | RedisError e2 => simp [goodListPage] at hg
      | RedisNull => simp [goodListPage] at hg
      | RedisArray vs =>
        have hne : vs ≠ [] := by
          intro hc
          subst hc
          simp [goodListPage] at hg
        obtain ⟨e, he, heq⟩ := ih bad rest (start + 100) hall2 hbad
        refine ⟨e, he, ?_⟩
        rw [List.map_cons, List.flatten_cons, List.append_assoc, ← heq]
        rw [List.cons_append, safeListLoop_good_page start vs hne]
        simp only [arrayPageElems]

theorem safeStreamLoop_bad {bad : ConnEvent} (hbad : badStreamEvent bad = true)
    (cursor : List Nat) (rest : List ConnEvent) :
    ∃ e, isErrorValue e = true ∧ (safeStreamLoop cursor (bad :: rest)).1 = [e] := by
  cases bad with
  | sendFail =>
    exact ⟨.RedisError (asciiBytes (r"XRANGE send failed")), rfl, by simp [safeStreamLoop]⟩
  | recvFail =>
    exact ⟨.RedisError (asciiBytes (r"XRANGE receive failed")), rfl, by simp [safeStreamLoop]⟩
  | reply v =>
    cases v with
    | RedisError e => exact ⟨.RedisError e, rfl, by simp [safeStreamLoop]⟩
    | RedisString s =>
      exact ⟨.RedisError (asciiBytes (r"unexpected XRANGE response format")), rfl,
        by simp [safeStreamLoop]⟩
    | RedisBulkString b len =>
      exact ⟨.RedisError (asciiBytes (r"unexpected XRANGE response format")), rfl,
        by simp [safeStreamLoop]⟩
    | RedisInteger i =>
      exact ⟨.RedisError (asciiBytes (r"unexpected XRANGE response format")), rfl,
        by simp [safeStreamLoop]⟩
    | RedisNull =>
      exact ⟨.RedisError (asciiBytes (r"unexpected XRANGE response format")), rfl,
        by simp [safeStreamLoop]⟩
    | RedisArray vs => simp [badStreamEvent] at hbad

theorem safeStreamLoop_good_page (cursor : List Nat) {vs : List RedisValue} {idv : RedisValue}
    {more : List RedisValue} (hlast : vs.getLast? = some (.RedisArray (idv :: more)))
    (hne : vs.length ≠ 0) (rest : List ConnEvent) :
    safeStreamLoop cursor (.reply (.RedisArray vs) :: rest)
      = (vs ++ (safeStreamLoop (40 :: StringValue idv) rest).1,
         cursor :: (safeStreamLoop (40 :: StringValue idv) rest).2) := by
  simp only [safeStreamLoop, if_neg hne, hlast]

theorem safeStream_error_tail :
    ∀ (goods : List ConnEvent) (bad : ConnEvent) (rest : List ConnEvent) (cursor : List Nat),
      goods.all goodStreamPage = true → badStreamEvent bad = true →
      ∃ e, isErrorValue e = true ∧
        (safeStreamLoop cursor (goods ++ bad :: rest)).1
          = (goods.map arrayPageElems).flatten ++ [e] := by
  intro goods
  induction goods with
  | nil =>
    intro bad rest cursor _ hbad
    obtain ⟨e, he, heq⟩ := safeStreamLoop_bad hbad cursor rest
    exact ⟨e, he, by simpa using heq⟩
  | cons g goods ih =>
    intro bad rest cursor hall hbad
    rw [List.all_cons, Bool.and_eq_true] at hall
    obtain ⟨hg, hall2⟩ := hall
    cases g with
    | sendFail => simp [goodStreamPage] at hg
    | recvFail => simp [goodStreamPage] at hg
    | reply v =>
      cases v with
      | RedisString s => simp [goodStreamPage] at hg
      | RedisBulkString b len => simp [goodStreamPage] at hg
      | RedisInteger i => simp [goodStreamPage] at hg
      | RedisError e2 => simp [goodStreamPage] at hg
      | RedisNull => simp [goodStreamPage] at hg
      | RedisArray vs =>
        rcases hlast : vs.getLast? with _ | lv
        · rw [goodStreamPage] at hg
          rw [hlast] at hg
          simp at hg
        · cases lv with
          | RedisArray ks =>
            cases ks with
            | nil =>
              rw [goodStreamPage] at hg
              rw [hlast] at hg
              simp at hg
            | cons idv more =>
              have hne : vs.length ≠ 0 := by
                rw [goodStreamPage] at hg
                rw [hlast] at hg
                simp at hg
                simpa using hg
              obtain ⟨e, he, heq⟩ := ih bad rest (40 :: StringValue idv) hall2 hbad
              refine ⟨e, he, ?_⟩
              rw [List.map_cons, List.flatten_cons, List.append_assoc, ← heq]
              rw [List.cons_append, safeStreamLoop_good_page cursor hlast hne]
              simp only [arrayPageElems]
          | RedisString s =>
            rw [goodStreamPage] at hg
            rw [hlast] at hg
            simp at hg
          | RedisBulkString b len =>
            rw [goodStreamPage] at hg
            rw [hlast] at hg
            simp at hg
          | RedisInteger i =>
            rw [goodStreamPage] at hg
            rw [hlast] at hg
            simp at hg
          | RedisError e2 =>
            rw [goodStreamPage] at hg
            rw [hlast] at hg
            simp at hg
          | RedisNull =>
            rw [goodStreamPage] at hg
            rw [hlast] at hg
            simp at hg

theorem safeStream_malformed_page (cursor : List Nat) {mal : ConnEvent}
    (hmal : malformedStreamPage mal = true) (rest : List ConnEvent) :
    (safeStreamLoop cursor (mal :: rest)).1
      = arrayPageElems mal ++ [.RedisError (asciiBytes (r"unexpected XRANGE entry format"))] := by
  cases mal with
  | sendFail => simp [malformedStreamPage] at hmal
  | recvFail => simp [malformedStreamPage] at hmal
  | reply v =>
    cases v with
    | RedisString s => simp [malformedStreamPage] at hmal
    | RedisBulkString b len => simp [malformedStreamPage] at hmal
    | RedisInteger i => simp [malformedStreamPage] at hmal
    | RedisError e2 => simp [malformedStreamPage] at hmal
    | RedisNull => simp [malformedStreamPage] at hmal
    | RedisArray vs =>
      have hne : vs.length ≠ 0 := by
        rw [malformedStreamPage] at hmal
        simp at hmal
        simpa using hmal.1
      rcases hlast : vs.getLast? with _ | lv
      · simp only [safeStreamLoop, if_neg hne, hlast, arrayPageElems]
      · cases lv with
        | RedisArray ks =>
          cases ks with
          | nil => simp only [safeStreamLoop, if_neg hne, hlast, arrayPageElems]
          | cons idv more =>
            rw [malformedStreamPage] at hmal
            rw [hlast] at hmal
            simp at hmal
        | RedisString s => simp only [safeStreamLoop, if_neg hne, hlast, arrayPageElems]
        | RedisBulkString b len => simp only [safeStreamLoop, if_neg hne, hlast, arrayPageElems]
        | RedisInteger i => simp only [safeStreamLoop, if_neg hne, hlast, arrayPageElems]
        | RedisError e2 => simp only [safeStreamLoop, if_neg hne, hlast, arrayPageElems]
        | RedisNull => simp only [safeStreamLoop, if_neg hne, hlast, arrayPageElems]

theorem safeStream_malformed_tail :
    ∀ (goods : List ConnEvent) (mal : ConnEvent) (rest : List ConnEvent) (cursor : List Nat),
      goods.all goodStreamPage = true → malformedStreamPage mal = true →
      (safeStreamLoop cursor (goods ++ mal :: rest)).1
        = (goods.map arrayPageElems).flatten
            ++ (arrayPageElems mal
                ++ [.RedisError (asciiBytes (r"unexpected XRANGE entry format"))]) := by
  intro goods
  induction goods with
  | nil =>
    intro mal rest cursor _ hmal
    simpa using safeStream_malformed_page cursor hmal rest
  | cons g goods ih =>
    intro mal rest cursor hall hmal
    rw [List.all_cons, Bool.and_eq_true] at hall
    obtain ⟨hg, hall2⟩ := hall
    cases g with
    | sendFail => simp [goodStreamPage] at hg
    | recvFail => simp [goodStreamPage] at hg
    | reply v =>
      cases v with
      | RedisString s => simp [goodStreamPage] at hg
      | RedisBulkString b len => simp [goodStreamPage] at hg
      | RedisInteger i => simp [goodStreamPage] at hg
      | RedisError e2 => simp [goodStreamPage] at hg
      | RedisNull => simp [goodStreamPage] at hg
      | RedisArray vs =>
        rcases hlast : vs.getLast? with _ | lv
        · rw [goodStreamPage] at hg
          rw [hlast] at hg
          simp at hg
        · cases lv with
          | RedisArray ks =>
            cases ks with
            | nil =>
              rw [goodStreamPage] at hg
              rw [hlast] at hg
              simp at hg
            | cons idv more =>
              have hne : vs.length ≠ 0 := by
                rw [goodStreamPage] at hg
                rw [hlast] at hg
                simp at hg
                simpa using hg
              rw [List.map_cons, List.flatten_cons, List.append_assoc,
                ← ih mal rest (40 :: StringValue idv) hall2 hmal]
              rw [List.cons_append, safeStreamLoop_good_page cursor hlast hne]
              simp only [arrayPageElems]
          | RedisString s =>
            rw [goodStreamPage] at hg
            rw [hlast] at hg
            simp at hg
          | RedisBulkString b len =>
            rw [goodStreamPage] at hg
            rw [hlast] at hg
            simp at hg
          | RedisInteger i =>
            rw [goodStreamPage] at hg
            rw [hlast] at hg
            simp at hg
          | RedisError e2 =>
            rw [goodStreamPage] at hg
            rw [hlast] at hg
            simp at hg
          | RedisNull =>
            rw [goodStreamPage] at hg
            rw [hlast] at hg
            simp at hg

/-!  The claims. -/

/-- Claim C3: in decoding, `-1` is the sole null sentinel — the inputs
`$-1\r\n` and `*-1\r\n` both decode to the null value; every declared
bulk-string length or array count strictly below `-1` produces a decode
error (never a null, never a value); and `$0\r\n\r\n` decodes to a
zero-length, non-null bulk string. -/
theorem claim_C3_null_sentinel :
    ParseValue [36, 45, 49, 13, 10] = .ok (.RedisNull, [])
    ∧ ParseValue [42, 45, 49, 13, 10] = .ok (.RedisNull, [])
    ∧ (∀ (i : Int) (rest : List Nat), i < -1 →
        (∃ e, ParseValue (36 :: intDecBytes i ++ 13 :: 10 :: rest) = .error e)
        ∧ (∃ e2, ParseValue (42 :: intDecBytes i ++ 13 :: 10 :: rest) = .error e2))
    ∧ ParseValue [36, 48, 13, 10, 13, 10] = .ok (.RedisBulkString [] 0, []) := by
  refine ⟨rfl, rfl, ?_, rfl⟩
  intro i rest hi
  constructor
  · obtain ⟨e, he⟩ := parseBulkString_neg hi rest
    refine ⟨e, ?_⟩
    rw [List.cons_append, ParseValue_cons, parseValueF_succ]
    norm_num
    exact he
  · obtain ⟨e, he⟩ := parseArrayWith_neg hi (parseValueF ((intDecBytes i ++ 13 :: 10 :: rest).length + 1)) rest
    refine ⟨e, ?_⟩
    rw [List.cons_append, ParseValue_cons, parseValueF_succ]
    rw [if_neg (by norm_num : ¬((42 : Nat) = 43)), if_neg (by norm_num : ¬((42 : Nat) = 45)),
      if_neg (by norm_num : ¬((42 : Nat) = 58)), if_neg (by norm_num : ¬((42 : Nat) = 36)),
      if_pos rfl]
    exact he

/-- Witness for C3 at the concrete invalid length `-2` (both for a bulk
string and for an array count). -/
theorem claim_C3_null_sentinel_witness :
    (-2 : Int) < -1
    ∧ (∃ e, ParseValue (36 :: intDecBytes (-2) ++ 13 :: 10 :: []) = .error e)
    ∧ (∃ e2, ParseValue (42 :: intDecBytes (-2) ++ 13 :: 10 :: []) = .error e2) :=
  ⟨by norm_num, (claim_C3_null_sentinel.2.2.1 (-2) [] (by norm_num)).1,
   (claim_C3_null_sentinel.2.2.1 (-2) [] (by norm_num)).2⟩

/-- Claim C4: for every declared bulk-string length `n ≥ 0` the decoder
consumes exactly the `n` raw payload bytes (arbitrary byte values, CR and
LF included) and then requires the next two stream bytes to be CR LF: with
them the result is a bulk string whose payload has length exactly `n`,
with anything else decoding fails with an error and no value is
produced. -/
theorem claim_C4_bulk_frame (payload : List Nat) (c1 c2 : Nat) (rest : List Nat)
    (h : payload.length < 2 ^ 63) :
    ParseValue (36 :: natDecBytes payload.length ++ 13 :: 10 :: (payload ++ c1 :: c2 :: rest))
      = if c1 = 13 ∧ c2 = 10
        then .ok (.RedisBulkString payload (payload.length : Int), rest)
        else .error (r"expected CRLF after bulk string payload") := by
  rw [List.cons_append, ParseValue_cons, parseValueF_succ]
  norm_num
  exact parseBulkString_frame payload c1 c2 rest h

/-- Witness for C4 at a 4-byte payload that itself contains CR and LF,
once with a correct trailing CRLF and once with a corrupted one. -/
theorem claim_C4_bulk_frame_witness :
    ([13, 10, 0, 255] : List Nat).length < 2 ^ 63
    ∧ ParseValue (36 :: natDecBytes ([13, 10, 0, 255] : List Nat).length
          ++ 13 :: 10 :: ([13, 10, 0, 255] ++ 13 :: 10 :: []))
        = .ok (.RedisBulkString [13, 10, 0, 255] (([13, 10, 0, 255] : List Nat).length : Int), [])
    ∧ ParseValue (36 :: natDecBytes ([13, 10, 0, 255] : List Nat).length
          ++ 13 :: 10 :: ([13, 10, 0, 255] ++ 88 :: 10 :: []))
        = .error (r"expected CRLF after bulk string payload") := by
  refine ⟨by norm_num, ?_, ?_⟩
  · have h1 := claim_C4_bulk_frame [13, 10, 0, 255] 13 10 [] (by norm_num)
    rw [if_pos ⟨rfl, rfl⟩] at h1
    exact h1
  · have h2 := claim_C4_bulk_frame [13, 10, 0, 255] 88 10 [] (by norm_num)
    rw [if_neg (by norm_num)] at h2
    exact h2

/-- Claim C2: decoding the bytes `SendRaw` writes for a command name and
argument list (arbitrary bytes, binary included) yields exactly one array
whose elements are bulk strings byte-for-byte equal to the name followed
by the arguments in order; and decoding the crafted wire encoding of any
well-formed value tree — nested arrays of any depth included — reproduces
the tree exactly. -/
theorem claim_C2_encode_decode :
    (∀ (name : List Nat) (args : List (List Nat)),
        (name :: args).length < 2 ^ 63 →
        (∀ a ∈ name :: args, a.length < 2 ^ 63) →
        ParseValue (sendRawBytes (name :: args))
          = .ok (.RedisArray ((name :: args).map (fun a => .RedisBulkString a (a.length : Int))),
              []))
    ∧ (∀ v : RedisValue, wfValue v = true → ParseValue (encodeValue v) = .ok (v, [])) := by
  constructor
  · intro name args h1 h2
    rw [sendRaw_eq_encode]
    exact ParseValue_encode (wf_sendRawValue (name :: args) h1 h2)
  · intro v h
    exact ParseValue_encode h

/-- Witness for C2: the command `SET key <0x00 0x01 0x02 0xff>` with a
binary argument, and the three-level nested tree `deepValue`. -/
theorem claim_C2_encode_decode_witness :
    ParseValue (sendRawBytes [[83, 69, 84], [107, 101, 121], [0, 1, 2, 255]])
      = .ok (.RedisArray
          (([[83, 69, 84], [107, 101, 121], [0, 1, 2, 255]] : List (List Nat)).map
            (fun a => .RedisBulkString a (a.length : Int))), [])
    ∧ ParseValue (encodeValue deepValue) = .ok (deepValue, []) := by
  constructor
  · exact claim_C2_encode_decode.1 [83, 69, 84] [[107, 101, 121], [0, 1, 2, 255]]
      (by norm_num) (by decide)
  · refine claim_C2_encode_decode.2 deepValue ?_
    simp only [deepValue, wfValue_arr, wfValue, List.all_cons, List.all_nil]
    norm_num

/-- Counterexample to C1 as stated: for a concrete 250-element list served
by slice-answering replies, `SafeList` issues four paging requests, with
start offsets 0, 100, 200 and 300 — not three. -/
theorem claim_C1_counterexample :
    (SafeList [107] (lrange250Events c1List)).2.map Prod.fst = [0, 100, 200, 300]
    ∧ ([0, 100, 200, 300] : List Nat) ≠ [0, 100, 200] := by
  constructor
  · rfl
  · decide

/-- Claim C1 amended: for every list key holding exactly 250 elements, each
`LRANGE` request answered with the requested slice, `SafeList` issues
exactly four paging requests with start offsets 0, 100, 200 and 300 (each
with stop = start + 99, the last answered by the empty slice), and yields
exactly the 250 elements in their original order. -/
theorem claim_C1_list_paging (key : List Nat) (L : List RedisValue) (extra : List ConnEvent)
    (h : L.length = 250) :
    SafeList key (lrange250Events L ++ extra)
      = (L, [(0, 99), (100, 199), (200, 299), (300, 399)]) :=
  safeList_250 L h extra

/-- Witness for the amended C1 at the concrete 250-element list. -/
theorem claim_C1_list_paging_witness :
    c1List.length = 250
    ∧ SafeList [107] (lrange250Events c1List ++ [])
        = (c1List, [(0, 99), (100, 199), (200, 299), (300, 399)]) :=
  ⟨by rw [c1List, List.length_map, List.length_range],
   claim_C1_list_paging [107] c1List [] (by rw [c1List, List.length_map, List.length_range])⟩

/-- Claim C5: for every nonempty stream-range page, the next `XRANGE`
cursor is computed from the id of the LAST entry of the page with the
exclusive marker prepended: the request recorded for the following page is
`(` (byte 40) followed by the `StringValue` of the final entry's first
element, regardless of the earlier entries (in particular the first
entry's id is never used). -/
theorem claim_C5_stream_cursor (cursor : List Nat) (init : List RedisValue)
    (idv : RedisValue) (more : List RedisValue) (rest : List ConnEvent) :
    safeStreamLoop cursor (.reply (.RedisArray (init ++ [.RedisArray (idv :: more)])) :: rest)
      = ((init ++ [.RedisArray (idv :: more)])
            ++ (safeStreamLoop (40 :: StringValue idv) rest).1,
         cursor :: (safeStreamLoop (40 :: StringValue idv) rest).2) := by
  apply safeStreamLoop_good_page
  · exact List.getLast?_concat init
  · simp

/-- Claim C6: an `HSCAN` page whose field/value array is the flat
alternating interleaving of `n` fields with `n` values contributes exactly
the `n` two-element pairs `[fi, vi]`, in order — never the flat elements
individually and never the cursor element — after which the iteration
continues (or terminates) on the cursor alone. -/
theorem claim_C6_hash_pairs (fs vs : List RedisValue) (h : fs.length = vs.length)
    (c0 : RedisValue) (extra : List RedisValue) (rest : List ConnEvent) (cursor : List Nat) :
    (safeHashLoop cursor
        (.reply (.RedisArray (c0 :: .RedisArray (interleave fs vs) :: extra)) :: rest)).1
      = (fs.zip vs).map (fun p => RedisValue.RedisArray [p.1, p.2])
          ++ (if StringValue c0 = [48] then []
              else (safeHashLoop (StringValue c0) rest).1) := by
  rw [← pairUp_interleave fs vs h]
  by_cases hc : StringValue c0 = [48]
  · rw [if_pos hc]
    simp only [safeHashLoop, scanLoopCore, if_pos hc, List.append_nil]
  · rw [if_neg hc]
    simp only [safeHashLoop, scanLoopCore, if_neg hc]

/-- Witness for C6: a six-element flat field/value array regrouped into
exactly three pairs, with a terminating cursor `"0"`. -/
theorem claim_C6_hash_pairs_witness :
    c6Fields.length = c6Values.length
    ∧ (safeHashLoop [48]
        [.reply (.RedisArray
          (.RedisBulkString [48] 1 :: .RedisArray (interleave c6Fields c6Values) :: []))]).1
      = (c6Fields.zip c6Values).map (fun p => RedisValue.RedisArray [p.1, p.2])
        ++ (if StringValue (RedisValue.RedisBulkString [48] 1) = [48] then []
            else (safeHashLoop (StringValue (RedisValue.RedisBulkString [48] 1)) []).1) :=
  ⟨rfl, claim_C6_hash_pairs c6Fields c6Values rfl (.RedisBulkString [48] 1) [] [] [48]⟩

/-- Claim C10: an `HSCAN` page whose field/value array has odd length
`2n + 1` contributes exactly the `n` complete pairs; the final unpaired
element is silently dropped — it is never yielded, produces no error
element, and does not end the iteration early. -/
theorem claim_C10_hash_odd (fs vs : List RedisValue) (h : fs.length = vs.length)
    (x c0 : RedisValue) (extra : List RedisValue) (rest : List ConnEvent) (cursor : List Nat) :
    (safeHashLoop cursor
        (.reply (.RedisArray (c0 :: .RedisArray (interleave fs vs ++ [x]) :: extra)) :: rest)).1
      = (fs.zip vs).map (fun p => RedisValue.RedisArray [p.1, p.2])
          ++ (if StringValue c0 = [48] then []
              else (safeHashLoop (StringValue c0) rest).1) := by
  rw [← pairUp_interleave fs vs h, ← pairUp_interleave_snoc fs vs h x]
  by_cases hc : StringValue c0 = [48]
  · rw [if_pos hc]
    simp only [safeHashLoop, scanLoopCore, if_pos hc, List.append_nil]
  · rw [if_neg hc]
    simp only [safeHashLoop, scanLoopCore, if_neg hc]

/-- Witness for C10: a seven-element flat array (three pairs plus one
unpaired trailing element) yields exactly the three pairs. -/
theorem claim_C10_hash_odd_witness :
    c6Fields.length = c6Values.length
    ∧ (safeHashLoop [48]
        [.reply (.RedisArray
          (.RedisBulkString [48] 1
            :: .RedisArray (interleave c6Fields c6Values ++ [.RedisBulkString [120] 1]) :: []))]).1
      = (c6Fields.zip c6Values).map (fun p => RedisValue.RedisArray [p.1, p.2])
        ++ (if StringValue (RedisValue.RedisBulkString [48] 1) = [48] then []
            else (safeHashLoop (StringValue (RedisValue.RedisBulkString [48] 1)) []).1) :=
  ⟨rfl, claim_C10_hash_odd c6Fields c6Values rfl (.RedisBulkString [120] 1)
    (.RedisBulkString [48] 1) [] [] [48]⟩

/-- Counterexample to C7 as stated: for the stream-range iterator, a reply
that does not match the expected shape — a nonempty array whose sole entry
is not an id-carrying array — does not produce a sequence consisting of
the earlier pages' elements followed by exactly one error-typed element:
the malformed page's own non-error element is yielded first. -/
theorem claim_C7_counterexample :
    (SafeStream [107] [.reply (.RedisArray [.RedisBulkString [120] 1])]).1
      = [.RedisBulkString [120] 1,
         .RedisError (asciiBytes (r"unexpected XRANGE entry format"))]
    ∧ isErrorValue (.RedisBulkString [120] 1) = false
    ∧ ((SafeStream [107] [.reply (.RedisArray [.RedisBulkString [120] 1])]).1).length ≠ 1 :=
  ⟨rfl, rfl, by decide⟩

/-- Claim C7 amended: for the key-space, set, hash and sorted-set scans and
for the list range, after any number of well-shaped non-terminal pages, a
send failure, a receive failure, an error-typed reply, or a reply that
does not match the expected shape produces exactly the elements already
yielded from the earlier pages followed by one error-typed element, with
nothing afterwards (the result is independent of any later events); for
the stream range the same holds for send failures, receive failures,
error-typed replies and non-array replies, while a nonempty array reply
whose last entry is not a nonempty array first contributes that page's own
entries and then the single terminal error element. -/
theorem claim_C7_error_tail :
    (∀ (pattern : List Nat) (goods : List ConnEvent) (bad : ConnEvent) (rest : List ConnEvent),
        goods.all goodScanPage = true → badScanEvent bad = true →
        ∃ e, isErrorValue e = true ∧
          (SafeKeys pattern (goods ++ bad :: rest)).1
            = (goods.map (fun g => scanPageRaw g)).flatten ++ [e])
    ∧ (∀ (key : List Nat) (goods : List ConnEvent) (bad : ConnEvent) (rest : List ConnEvent),
        goods.all goodScanPage = true → badScanEvent bad = true →
        ∃ e, isErrorValue e = true ∧
          (SafeSets key (goods ++ bad :: rest)).1
            = (goods.map (fun g => scanPageRaw g)).flatten ++ [e])
    ∧ (∀ (key : List Nat) (goods : List ConnEvent) (bad : ConnEvent) (rest : List ConnEvent),
        goods.all goodScanPage = true → badScanEvent bad = true →
        ∃ e, isErrorValue e = true ∧
          (SafeHash key (goods ++ bad :: rest)).1
            = (goods.map (fun g => pairUp (scanPageRaw g))).flatten ++ [e])
    ∧ (∀ (key : List Nat) (goods : List ConnEvent) (bad : ConnEvent) (rest : List ConnEvent),
        goods.all goodScanPage = true → badScanEvent bad = true →
        ∃ e, isErrorValue e = true ∧
          (SafeSortedSets key (goods ++ bad :: rest)).1
            = (goods.map (fun g => scanPageRaw g)).flatten ++ [e])
    ∧ (∀ (key : List Nat) (goods : List ConnEvent) (bad : ConnEvent) (rest : List ConnEvent),
        goods.all goodListPage = true → badListEvent bad = true →
        ∃ e, isErrorValue e = true ∧
          (SafeList key (goods ++ bad :: rest)).1
            = (goods.map arrayPageElems).flatten ++ [e])
    ∧ (∀ (key : List Nat) (goods : List ConnEvent) (bad : ConnEvent) (rest : List ConnEvent),
        goods.all goodStreamPage = true → badStreamEvent bad = true →
        ∃ e, isErrorValue e = true ∧
          (SafeStream key (goods ++ bad :: rest)).1
            = (goods.map arrayPageElems).flatten ++ [e])
    ∧ (∀ (key : List Nat) (goods : List ConnEvent) (mal : ConnEvent) (rest : List ConnEvent),
        goods.all goodStreamPage = true → malformedStreamPage mal = true →
        (SafeStream key (goods ++ mal :: rest)).1
          = (goods.map arrayPageElems).flatten
              ++ (arrayPageElems mal
                  ++ [.RedisError (asciiBytes (r"unexpected XRANGE entry format"))])) := by
  refine ⟨?_, ?_, ?_, ?_, ?_, ?_, ?_⟩
  · intro pattern goods bad rest hg hb
    obtain ⟨e, he, heq⟩ := scanLoopCore_error_tail scanMsgs id goods bad rest [48] hg hb
    exact ⟨e, he, by simpa [SafeKeys, safeKeysLoop] using heq⟩
  · intro key goods bad rest hg hb
    obtain ⟨e, he, heq⟩ := scanLoopCore_error_tail sscanMsgs id goods bad rest [48] hg hb
    exact ⟨e, he, by simpa [SafeSets, safeSetsLoop] using heq⟩
  · intro key goods bad rest hg hb
    obtain ⟨e, he, heq⟩ := scanLoopCore_error_tail hscanMsgs pairUp goods bad rest [48] hg hb
    exact ⟨e, he, by simpa [SafeHash, safeHashLoop] using heq⟩
  · intro key goods bad rest hg hb
    obtain ⟨e, he, heq⟩ := scanLoopCore_error_tail zscanMsgs id goods bad rest [48] hg hb
    exact ⟨e, he, by simpa [SafeSortedSets, safeSortedSetsLoop] using heq⟩
  · intro key goods bad rest hg hb
    obtain ⟨e, he, heq⟩ := safeListLoop_error_tail goods bad rest 0 hg hb
    exact ⟨e, he, by simpa [SafeList] using heq⟩
  · intro key goods bad rest hg hb
    obtain ⟨e, he, heq⟩ := safeStream_error_tail goods bad rest [45] hg hb
    exact ⟨e, he, by simpa [SafeStream] using heq⟩
  · intro key goods mal rest hg hm
    have heq := safeStream_malformed_tail goods mal rest [45] hg hm
    simpa [SafeStream] using heq

/-- Witness for the amended C7: a key-space scan whose first page is good
(cursor `"1"`, one key) and whose second round trip fails on receive, and
a stream range whose single reply is a malformed nonempty page. -/
theorem claim_C7_error_tail_witness :
    (∃ e, isErrorValue e = true ∧
      (SafeKeys []
        ([.reply (.RedisArray
            [.RedisBulkString [49] 1, .RedisArray [.RedisBulkString [107] 1]])]
          ++ ConnEvent.recvFail :: [])).1
        = ([(.reply (.RedisArray
              [.RedisBulkString [49] 1, .RedisArray [.RedisBulkString [107] 1]]) : ConnEvent)].map
            (fun g => scanPageRaw g)).flatten ++ [e])
    ∧ (SafeStream [107]
        ([] ++ ConnEvent.reply (.RedisArray [.RedisBulkString [120] 1]) :: [])).1
        = (([] : List ConnEvent).map arrayPageElems).flatten
            ++ (arrayPageElems (ConnEvent.reply (.RedisArray [.RedisBulkString [120] 1]))
                ++ [.RedisError (asciiBytes (r"unexpected XRANGE entry format"))]) :=
  ⟨claim_C7_error_tail.1 []
      [.reply (.RedisArray [.RedisBulkString [49] 1, .RedisArray [.RedisBulkString [107] 1]])]
      .recvFail [] (by decide) (by decide),
   claim_C7_error_tail.2.2.2.2.2.2 [107] []
      (ConnEvent.reply (.RedisArray [.RedisBulkString [120] 1])) [] (by decide) (by decide)⟩

/-- Claim C8: in the subscription stream, a timeout-class receive error
contributes no element and the loop polls again; a cancellation signal
observed before a poll ends the sequence with zero additional elements;
and a non-timeout receive error appends exactly one synthetic error
element, after which the sequence ends. -/
theorem claim_C8_subscribe :
    (∀ (pre : List RedisValue) (rest : List SubTick),
        subscribeRun (pre.map SubTick.msg ++ SubTick.timeout :: rest)
          = pre ++ subscribeRun rest)
    ∧ (∀ (pre : List RedisValue) (rest : List SubTick),
        subscribeRun (pre.map SubTick.msg ++ SubTick.cancel :: rest) = pre)
    ∧ (∀ (pre : List RedisValue) (m : List Nat) (rest : List SubTick),
        subscribeRun (pre.map SubTick.msg ++ SubTick.fail m :: rest)
          = pre ++ [.RedisError m]) := by
  refine ⟨?_, ?_, ?_⟩
  · intro pre
    induction pre with
    | nil => intro rest; simp [subscribeRun]
    | cons v pre ih => intro rest; simp [subscribeRun, ih]
  · intro pre
    induction pre with
    | nil => intro rest; simp [subscribeRun]
    | cons v pre ih => intro rest; simp [subscribeRun, ih]
  · intro pre
    induction pre with
    | nil => intro rest m; simp [subscribeRun]
    | cons v pre ih => intro rest m; simp [subscribeRun, ih]

/-- Claim C9: when a password is supplied and the authentication reply is
an error-typed value or anything other than the simple string `OK`,
`Connect` returns an error and no connection, and the transport is closed
before the error is returned. -/
theorem claim_C9_auth_failure (user pass : List Nat) (v : RedisValue)
    (hpass : pass ≠ [])
    (hbad : isErrorValue v = true ∨ v ≠ .RedisString strOK) :
    connectTrace user pass false false (some v) = [.closeTransport, .returnError] := by
  simp only [connectTrace, Bool.false_eq_true, if_false, if_neg hpass]
  cases v with
  | RedisString s =>
    have hs : s ≠ strOK := by
      rcases hbad with h1 | h2
      · simp [isErrorValue] at h1
      · intro hc
        exact h2 (by rw [hc])
    simp only [if_neg hs]
  | RedisError e => rfl
  | RedisBulkString b len => rfl
  | RedisInteger i => rfl
  | RedisArray vs => rfl
  | RedisNull => rfl

/-- Witness for C9: password `p`, reply `-WRONGPASS`. -/
theorem claim_C9_auth_failure_witness :
    ([112] : List Nat) ≠ []
    ∧ (isErrorValue (.RedisError (asciiBytes (r"WRONGPASS"))) = true
        ∨ (RedisValue.RedisError (asciiBytes (r"WRONGPASS"))) ≠ .RedisString strOK)
    ∧ connectTrace [] [112] false false (some (.RedisError (asciiBytes (r"WRONGPASS"))))
        = [.closeTransport, .returnError] :=
  ⟨by decide, Or.inl rfl,
   claim_C9_auth_failure [] [112] (.RedisError (asciiBytes (r"WRONGPASS"))) (by decide)
     (Or.inl rfl)⟩
